import Mathlib

/-!
Formal model of the retrieval core of the Personal-Knowledge-Base RAG API.

The embedding covers `src/vector_db.py` (the `FAISSVectorDB` flat store and
the `QdrantVectorDB` payload construction) and `src/retrieval.py` (the
`Retriever`).  Modelling conventions:

* Python float arithmetic is modelled exactly over a linear ordered field;
  the concrete program instantiates the scalar at `ℝ` with
  `Real.sqrt` standing for the float square root used by
  `faiss.normalize_L2`.  Every concrete input used in the theorems below
  evaluates exactly in float32 as well (small integers and unit fractions).
* Python dicts with string keys and values are modelled as insertion-ordered
  association lists; `dict.get`, `dict.setdefault` and dict truthiness are
  modelled below.
* The faiss library calls (`IndexFlatIP.add`, `IndexFlatIP.search`,
  `faiss.normalize_L2`) are external library code, modelled from their
  documented semantics: exact inner-product search returning the `top_k`
  best ids in descending score order (ties: smaller id first), padded with
  id `-1` when the index holds fewer than `top_k` vectors;
  `normalize_L2` divides each row by its L2 norm in place (rows with zero
  norm are left untouched).
* `faiss.normalize_L2` mutates its argument in place, so the model of
  `FAISSVectorDB.add` returns a pair: the new store state and the content of
  the caller's `vectors` buffer after the call.
* Exceptions are modelled with `Except String`.
-/

/-- Metadata: a Python dict with string keys and string values, as an
insertion-ordered association list (lookup returns the first binding). -/
abbrev Metadata := List (String × String)

/-- A filter argument (a Python dict), e.g. `{"source": "b.txt"}`. -/
abbrev Filters := List (String × String)

/-- Python `dict.setdefault k v`: unchanged when the key is present,
otherwise the binding is appended at the end. -/
def setdefault (m : Metadata) (k v : String) : Metadata :=
  if (List.lookup k m).isSome then m else m ++ [(k, v)]

/-- The two defaulting calls applied to a copied result item in
`FAISSVectorDB.search`: `item.setdefault("text", "")` then
`item.setdefault("source", "unknown")`. -/
def mdefaults (m : Metadata) : Metadata :=
  setdefault (setdefault m "text" "") "source" "unknown"

variable {α : Type} [LinearOrderedField α]

/-- Inner product of two vectors (rows are always of equal length in the
program; extra coordinates of a longer row would be ignored). -/
def dot : List α → List α → α
  | x :: xs, y :: ys => x * y + dot xs ys
  | _, _ => 0

/-- Model of `faiss.normalize_L2` on one row: divide by the L2 norm, leaving
rows of zero norm untouched.  The square root of the ambient float library
is passed explicitly; the program uses the real square root. -/
def faissNormalizeL2 (sqrt : α → α) (v : List α) : List α :=
  if 0 < dot v v then v.map (fun x => x / sqrt (dot v v)) else v

/-- First pair holding the maximum score of a scored id list (the earlier
id wins ties, as a strictly greater score is needed to displace it). -/
def argmaxP : List (ℕ × α) → Option (ℕ × α) :=
  List.foldl
    (fun acc p =>
      match acc with
      | none => some p
      | some b => if b.2 < p.2 then some p else some b)
    none

/-- Ids of the `k` best scores in descending order, ties by smaller id,
padded with `-1` once the candidates run out. -/
def selectTop : ℕ → List (ℕ × α) → List ℤ
  | 0, _ => []
  | k + 1, l =>
    match argmaxP l with
    | none => List.replicate (k + 1) (-1)
    | some p => (p.1 : ℤ) :: selectTop k (l.filter fun q => q.1 != p.1)

/-- Model of `IndexFlatIP.search`: ids of the `top_k` largest inner products
of the stored rows with the query row, `-1`-padded to length `top_k`. -/
def faissSearchIds (index : List (List α)) (q : List α) (k : ℕ) : List ℤ :=
  selectTop k (List.enum (index.map (fun v => dot v q)))

/-- Python list indexing `l[i]` for a possibly negative integer index:
negative indices count from the end, out-of-range gives `none`
(an `IndexError` at the call site). -/
def pyIdx (l : List Metadata) (i : ℤ) : Option Metadata :=
  if 0 ≤ i then l[i.toNat]?
  else if 0 ≤ i + l.length then l[(i + (l.length : ℤ)).toNat]?
  else none

/-- The result-collection loop of `FAISSVectorDB.search`:
`for i in indices[0]: if i < len(self.metadata): item = self.metadata[i].copy();
item.setdefault(...); results.append(item)`.  An out-of-range access raises
`IndexError`, discarding everything. -/
def collectResults (metadata : List Metadata) : List ℤ → Except String (List Metadata)
  | [] => .ok []
  | i :: rest =>
    if i < (metadata.length : ℤ) then
      match pyIdx metadata i with
      | none => .error "IndexError: list index out of range"
      | some m => (collectResults metadata rest).map (fun tl => mdefaults m :: tl)
    else
      collectResults metadata rest

/-- The filter predicate of `FAISSVectorDB.search`:
`r.get("source") == filters.get("source")`.  Note that only the fixed key
`"source"` is ever consulted, whatever the filter dict contains. -/
def passesFilter (filters : Filters) (r : Metadata) : Bool :=
  List.lookup "source" r == List.lookup "source" filters

/-- The final filtering step `if filters: results = [r for r in results if ...]`
(a `None` or empty dict is falsy, so no filtering happens then). -/
def applyFilters (filters : Option Filters) (results : List Metadata) : List Metadata :=
  match filters with
  | some f => if f.isEmpty then results else results.filter (passesFilter f)
  | none => results

/-- State of `FAISSVectorDB`: the rows stored in the flat index and the
parallel Python metadata list. -/
structure FAISSVectorDB (α : Type) where
  index : List (List α)
  metadata : List Metadata

/-- `FAISSVectorDB.add`: `faiss.normalize_L2(vectors)` (in place), then
`self.index.add(vectors)` and `self.metadata.extend(metadata)`.  The second
component of the result is the content of the caller's `vectors` array after
the call, which `normalize_L2` has overwritten. -/
def FAISSVectorDB.add (sqrt : α → α) (db : FAISSVectorDB α)
    (vectors : List (List α)) (metadata : List Metadata) :
    FAISSVectorDB α × List (List α) :=
  let normed := vectors.map (faissNormalizeL2 sqrt)
  ({ index := db.index ++ normed, metadata := db.metadata ++ metadata }, normed)

/-- `FAISSVectorDB.search`: normalize the query (on a copy, as
`astype(np.float32)` copies), run the faiss top-k search, collect the
metadata items for the returned ids, then apply the filter. -/
def FAISSVectorDB.search (sqrt : α → α) (db : FAISSVectorDB α)
    (query_vector : List α) (top_k : ℕ) (filters : Option Filters) :
    Except String (List Metadata) :=
  match collectResults db.metadata
      (faissSearchIds db.index (faissNormalizeL2 sqrt query_vector) top_k) with
  | .error e => .error e
  | .ok results => .ok (applyFilters filters results)

/-- One point sent to the remote collection by `QdrantVectorDB.add`. -/
structure QdrantPoint (α : Type) where
  id : String
  vector : List α
  payload : Metadata

/-- The point batch built by `QdrantVectorDB.add`: a fresh id per entry
(`uuid.uuid4()` is modelled as an id supply indexed by position) and a
payload holding exactly the `text` and `source` fields. -/
def qdrantAddPoints (ids : ℕ → String) (vectors : List (List α))
    (metadata : List Metadata) : List (QdrantPoint α) :=
  (List.zip vectors metadata).enum.map fun p =>
    { id := ids p.1
      vector := p.2.1
      payload := [("text", (List.lookup "text" p.2.2).getD ""),
                  ("source", (List.lookup "source" p.2.2).getD "unknown")] }

/-- The `Retriever`'s collaborators: the embedder (applied to the single
query), the vector store's `search`, and the optional cross-encoder scorer
applied to the (query, text) pairs. -/
structure Retriever (α : Type) where
  embed : String → List α
  dbSearch : List α → ℕ → Option Filters → Except String (List Metadata)
  reranker : Option (List (String × String) → List α)

/-- The defensive candidate filter of `Retriever.retrieve`:
`[c for c in candidates if isinstance(c, dict) and "text" in c]`
(every candidate is a dict in this model). -/
def validOf (candidates : List Metadata) : List Metadata :=
  candidates.filter (fun c => (List.lookup "text" c).isSome)

/-- The pair batch `[[query, c["text"]] for c in valid_candidates]`. -/
def pairsOf (query : String) (valid : List Metadata) : List (String × String) :=
  valid.map (fun c => (query, (List.lookup "text" c).getD ""))

/-- Stable insertion of a scored position into an ascending run (ties keep
the smaller position first). -/
def insertByVal (p : ℕ × α) : List (ℕ × α) → List (ℕ × α)
  | [] => [p]
  | q :: rest =>
    if p.2 < q.2 ∨ (p.2 = q.2 ∧ p.1 < q.1) then p :: q :: rest
    else q :: insertByVal p rest

/-- Stable ascending sort of scored positions. -/
def sortPairs : List (ℕ × α) → List (ℕ × α)
  | [] => []
  | p :: rest => insertByVal p (sortPairs rest)

/-- Model of `np.argsort(scores)`: positions of the scores in ascending
score order, ties in position order (numpy sorts these small batches with a
stable insertion sort). -/
def npArgsort (scores : List α) : List ℕ :=
  (sortPairs (List.enum scores)).map (fun p => p.1)

/-- `Retriever.retrieve`: embed the query, search the store, drop malformed
candidates, then either rerank with
`np.argsort(scores)[::-1][:top_k_final]` or truncate the similarity order. -/
def Retriever.retrieve (R : Retriever α) (query : String)
    (top_k_initial top_k_final : ℕ) (filters : Option Filters) :
    Except String (List Metadata) :=
  match R.dbSearch (R.embed query) top_k_initial filters with
  | .error e => .error e
  | .ok candidates =>
    match R.reranker with
    | some scorer =>
      if (validOf candidates).isEmpty then
        .ok ((validOf candidates).take top_k_final)
      else
        .ok ((((npArgsort (scorer (pairsOf query (validOf candidates)))).reverse).take
            top_k_final).filterMap (fun i => (validOf candidates)[i]?))
    | none => .ok ((validOf candidates).take top_k_final)

/-! ### Basic evaluation helpers -/

lemma selectTop_nil (k : ℕ) : selectTop k ([] : List (ℕ × α)) = List.replicate k (-1) := by
  cases k <;> rfl

lemma collect_replicate_neg (m : Metadata) (k : ℕ) :
    collectResults [m] (List.replicate k (-1)) = .ok (List.replicate k (mdefaults m)) := by
  induction k with
  | zero => rfl
  | succ k ih => simp [List.replicate_succ, collectResults, pyIdx, ih, Except.map]

/-- On a store holding exactly one entry, any search with `top_k = k + 1`
returns that entry `k + 1` times: the one real hit, then one copy per `-1`
padding id (Python resolves `metadata[-1]` to the last entry). -/
lemma search_singleton (sqrt : α → α) (w q : List α) (m : Metadata) (k : ℕ) :
    FAISSVectorDB.search sqrt ⟨[w], [m]⟩ q (k + 1) none =
      .ok (List.replicate (k + 1) (mdefaults m)) := by
  have hids : faissSearchIds [w] (faissNormalizeL2 sqrt q) (k + 1) =
      (0 : ℤ) :: List.replicate k (-1) := by
    have henum : List.enum [dot w (faissNormalizeL2 sqrt q)] =
        [(0, dot w (faissNormalizeL2 sqrt q))] := rfl
    simp [faissSearchIds, henum, selectTop, argmaxP, selectTop_nil]
  have hcoll : collectResults [m] ((0 : ℤ) :: List.replicate k (-1)) =
      .ok (mdefaults m :: List.replicate k (mdefaults m)) := by
    simp [collectResults, pyIdx, collect_replicate_neg, Except.map]
  simp [FAISSVectorDB.search, hids, hcoll, applyFilters, List.replicate_succ]

/-- C1: searching a store with zero entries does not return an empty result;
it raises `IndexError`.  faiss pads the missing results with id `-1`, the
guard `i < len(self.metadata)` lets `-1` through, and `self.metadata[-1]`
on the empty metadata list is out of range. -/
theorem C1_empty_store_search_raises (sqrt : ℝ → ℝ) (q : List ℝ) (k : ℕ) :
    FAISSVectorDB.search sqrt ⟨[], []⟩ q (k + 1) none =
      .error "IndexError: list index out of range" := by
  have hids : faissSearchIds ([] : List (List ℝ)) (faissNormalizeL2 sqrt q) (k + 1) =
      List.replicate (k + 1) (-1) := by
    simp [faissSearchIds, selectTop_nil]
  simp [FAISSVectorDB.search, hids, List.replicate_succ, collectResults, pyIdx]

/-- C2: on a store holding a single entry, `search` with `top_k = 2` and no
filter returns two candidates (the entry and a duplicate produced by the
`-1` padding id), not `min(2, 1) = 1` as the spec requires. -/
theorem C2_single_entry_top2_returns_two (sqrt : ℝ → ℝ) (w q : List ℝ) (m : Metadata) :
    FAISSVectorDB.search sqrt ⟨[w], [m]⟩ q 2 none = .ok [mdefaults m, mdefaults m] := by
  simpa using search_singleton sqrt w q m 1

/-- C3 (counterexample): `add` with one vector and two metadata entries does
not fail; it returns a store with one index row and two metadata entries,
changing both counts and leaving them out of sync. -/
theorem C3_add_mismatch_counterexample :
    (FAISSVectorDB.add Real.sqrt ⟨[], []⟩ [[1, 0]]
        [[("text", "ta"), ("source", "a")], [("text", "tb"), ("source", "b")]]).1.index.length = 1 ∧
    (FAISSVectorDB.add Real.sqrt ⟨[], []⟩ [[1, 0]]
        [[("text", "ta"), ("source", "a")], [("text", "tb"), ("source", "b")]]).1.metadata.length = 2 := by
  constructor <;> rfl

/-- C3 (amended): `add` performs no batch-length validation at all: for any
batches it succeeds, appending every vector to the index and every metadata
entry to the metadata list, so the two sizes grow independently. -/
theorem C3_add_no_length_validation (sqrt : ℝ → ℝ) (db : FAISSVectorDB ℝ)
    (vectors : List (List ℝ)) (metadata : List Metadata) :
    (FAISSVectorDB.add sqrt db vectors metadata).1.index.length =
        db.index.length + vectors.length ∧
    (FAISSVectorDB.add sqrt db vectors metadata).1.metadata.length =
        db.metadata.length + metadata.length := by
  simp [FAISSVectorDB.add]

/-- C10: `add` runs `faiss.normalize_L2(vectors)` in place, so after the
call the caller's array holds the row-normalized vectors; whenever the
batch was not already normalized, the caller's data has been changed. -/
theorem C10_add_mutates_caller_vectors (sqrt : ℝ → ℝ) (db : FAISSVectorDB ℝ)
    (vectors : List (List ℝ)) (metadata : List Metadata)
    (h : vectors.map (faissNormalizeL2 sqrt) ≠ vectors) :
    (FAISSVectorDB.add sqrt db vectors metadata).2 =
        vectors.map (faissNormalizeL2 sqrt) ∧
    (FAISSVectorDB.add sqrt db vectors metadata).2 ≠ vectors :=
  ⟨rfl, fun hc => h (by simpa [FAISSVectorDB.add] using hc)⟩

/-- C10 (witness): the batch `[[3, 4]]` is rewritten in place to
`[[3/5, 4/5]]` by `add`. -/
theorem C10_add_mutates_caller_vectors_witness :
    ([[(3 : ℝ), 4]].map (faissNormalizeL2 Real.sqrt) ≠ [[3, 4]]) ∧
    (FAISSVectorDB.add Real.sqrt ⟨[], []⟩ [[(3 : ℝ), 4]] [[]]).2 =
        [[(3 : ℝ), 4]].map (faissNormalizeL2 Real.sqrt) ∧
    (FAISSVectorDB.add Real.sqrt ⟨[], []⟩ [[(3 : ℝ), 4]] [[]]).2 ≠ [[3, 4]] := by
  have h25 : dot [(3 : ℝ), 4] [3, 4] = 25 := by norm_num [dot]
  have h5 : Real.sqrt 25 = 5 := by
    rw [show (25 : ℝ) = 5 ^ 2 by norm_num]
    exact Real.sqrt_sq (by norm_num)
  have hnl : faissNormalizeL2 Real.sqrt [(3 : ℝ), 4] = [3 / 5, 4 / 5] := by
    simp only [faissNormalizeL2, h25, h5]
    rw [if_pos (by norm_num : (0 : ℝ) < 25)]
    norm_num
  have h : [[(3 : ℝ), 4]].map (faissNormalizeL2 Real.sqrt) ≠ [[3, 4]] := by
    simp [hnl]
    norm_num
  have happ := C10_add_mutates_caller_vectors Real.sqrt ⟨[], []⟩ [[(3 : ℝ), 4]] [[]] h
  exact ⟨h, happ.1, happ.2⟩

/-! ### Correctness of the rerank ordering -/

/-- Ascending order on scored positions, ties resolved by position: the
total preorder produced by a stable ascending argsort. -/
def ascLE (p q : ℕ × α) : Prop := p.2 < q.2 ∨ (p.2 = q.2 ∧ p.1 ≤ q.1)

lemma ascLE_trans {p q r : ℕ × α} (h1 : ascLE p q) (h2 : ascLE q r) : ascLE p r := by
  rcases h1 with h1 | ⟨e1, l1⟩ <;> rcases h2 with h2 | ⟨e2, l2⟩
  · exact Or.inl (h1.trans h2)
  · exact Or.inl (e2 ▸ h1)
  · exact Or.inl (e1 ▸ h2)
  · exact Or.inr ⟨e1.trans e2, l1.trans l2⟩

lemma ascLE_of_not_cond {p q : ℕ × α}
    (h : ¬(p.2 < q.2 ∨ (p.2 = q.2 ∧ p.1 < q.1))) : ascLE q p := by
  push_neg at h
  rcases lt_trichotomy p.2 q.2 with hlt | heq | hgt
  · exact absurd hlt (not_lt.mpr h.1)
  · exact Or.inr ⟨heq.symm, h.2 heq⟩
  · exact Or.inl hgt

lemma ascLE_of_cond {p q : ℕ × α}
    (h : p.2 < q.2 ∨ (p.2 = q.2 ∧ p.1 < q.1)) : ascLE p q := by
  rcases h with h | ⟨h1, h2⟩
  · exact Or.inl h
  · exact Or.inr ⟨h1, le_of_lt h2⟩

lemma mem_insertByVal (x p : ℕ × α) (l : List (ℕ × α)) :
    x ∈ insertByVal p l ↔ x = p ∨ x ∈ l := by
  induction l with
  | nil => simp [insertByVal]
  | cons q rest ih =>
    rw [insertByVal]
    split
    · simp [List.mem_cons]
    · simp [List.mem_cons, ih]
      tauto

lemma pairwise_insertByVal (p : ℕ × α) (l : List (ℕ × α)) (h : l.Pairwise ascLE) :
    (insertByVal p l).Pairwise ascLE := by
  induction l with
  | nil => simp [insertByVal]
  | cons q rest ih =>
    rw [List.pairwise_cons] at h
    obtain ⟨hq, hrest⟩ := h
    rw [insertByVal]
    split
    · rename_i hc
      refine List.Pairwise.cons ?_ (List.Pairwise.cons hq hrest)
      intro x hx
      rcases List.mem_cons.mp hx with rfl | hx
      · exact ascLE_of_cond hc
      · exact ascLE_trans (ascLE_of_cond hc) (hq x hx)
    · rename_i hc
      refine List.Pairwise.cons ?_ (ih hrest)
      intro x hx
      rcases (mem_insertByVal x p rest).mp hx with rfl | hx
      · exact ascLE_of_not_cond hc
      · exact hq x hx

lemma perm_insertByVal (p : ℕ × α) (l : List (ℕ × α)) :
    List.Perm (insertByVal p l) (p :: l) := by
  induction l with
  | nil => rfl
  | cons q rest ih =>
    rw [insertByVal]
    split
    · rfl
    · exact (ih.cons q).trans (List.Perm.swap p q rest)

lemma sortPairs_pairwise (l : List (ℕ × α)) : (sortPairs l).Pairwise ascLE := by
  induction l with
  | nil => simp [sortPairs]
  | cons p rest ih => exact pairwise_insertByVal p _ ih

lemma sortPairs_perm (l : List (ℕ × α)) : List.Perm (sortPairs l) l := by
  induction l with
  | nil => rfl
  | cons p rest ih => exact (perm_insertByVal p _).trans (ih.cons p)

/-- C5 (amended): when a reranker is configured and at least one valid
candidate remains, `retrieve` scores every (query, text) pair and returns
the candidates ordered by strictly descending rerank score truncated to the
first `top_k_final`; candidates with EQUAL rerank scores appear in the
REVERSE of their pre-rerank order, because `np.argsort` sorts ascending
with ties in pre-rerank order and the subsequent `[::-1]` reverses ties
together with everything else. -/
theorem C5_rerank_desc_ties_reversed (R : Retriever α) (query : String)
    (k_i k_f : ℕ) (filters : Option Filters)
    (scorer : List (String × String) → List α) (candidates : List Metadata)
    (hr : R.reranker = some scorer)
    (hs : R.dbSearch (R.embed query) k_i filters = .ok candidates)
    (hv : validOf candidates ≠ []) :
    ∃ ranking : List (ℕ × α),
      List.Perm ranking (List.enum (scorer (pairsOf query (validOf candidates)))) ∧
      ranking.Pairwise (fun p q => q.2 < p.2 ∨ (q.2 = p.2 ∧ q.1 < p.1)) ∧
      (∀ p ∈ ranking, p.1 < (scorer (pairsOf query (validOf candidates))).length) ∧
      R.retrieve query k_i k_f filters =
        .ok ((ranking.take k_f).filterMap (fun p => (validOf candidates)[p.1]?)) := by
  refine ⟨(sortPairs (List.enum (scorer (pairsOf query (validOf candidates))))).reverse,
    (List.reverse_perm _).trans (sortPairs_perm _), ?_, ?_, ?_⟩
  · have hpw : (sortPairs (List.enum (scorer (pairsOf query
        (validOf candidates))))).reverse.Pairwise (fun p q => ascLE q p) :=
      List.pairwise_reverse.mpr (sortPairs_pairwise _)
    have hperm := ((List.reverse_perm _).trans
      (sortPairs_perm (List.enum (scorer (pairsOf query (validOf candidates)))))).map Prod.fst
    have hnd : ((sortPairs (List.enum (scorer (pairsOf query
        (validOf candidates))))).reverse.map Prod.fst).Nodup :=
      hperm.nodup_iff.mpr (List.nodup_enum_map_fst _)
    have hne : (sortPairs (List.enum (scorer (pairsOf query
        (validOf candidates))))).reverse.Pairwise (fun p q => p.1 ≠ q.1) :=
      List.pairwise_map.mp hnd
    refine (hpw.and hne).imp ?_
    rintro p q ⟨hle | ⟨he, hle⟩, hne2⟩
    · exact Or.inl hle
    · exact Or.inr ⟨he, lt_of_le_of_ne hle (fun e => hne2 e.symm)⟩
  · intro p hp
    have hmem : p ∈ List.enum (scorer (pairsOf query (validOf candidates))) :=
      (((List.reverse_perm _).trans (sortPairs_perm _)).mem_iff).mp hp
    exact (List.getElem?_eq_some.mp (List.mem_enum_iff_getElem?.mp hmem)).1
  · have hve : (validOf candidates).isEmpty = false := by
      cases hval : validOf candidates with
      | nil => exact absurd hval hv
      | cons a l => rfl
    simp only [Retriever.retrieve, hs, hr, hve, Bool.false_eq_true, if_false]
    simp [npArgsort, ← List.map_reverse, ← List.map_take, List.filterMap_map]
    rfl

/-- First candidate returned by the stubbed store in the rerank examples. -/
def cA : Metadata := [("text", "pa")]

/-- Second candidate returned by the stubbed store in the rerank examples. -/
def cB : Metadata := [("text", "pb")]

/-- A retriever whose stub reranker gives both candidates the same score. -/
def Rtie : Retriever ℚ :=
  ⟨fun _ => [], fun _ _ _ => .ok [cA, cB], some (fun _ => [1, 1])⟩

/-- C5 (counterexample): with equal rerank scores for the two candidates
`[cA, cB]` (pre-rerank order), `retrieve` returns `[cB, cA]`: ties come out
in reversed pre-rerank order, not the pre-rerank order the claim states. -/
theorem C5_tie_counterexample :
    Retriever.retrieve Rtie "q" 10 2 none = .ok [cB, cA] ∧ cB ≠ cA :=
  ⟨rfl, by decide⟩

/-- Stub scorer used in the rerank witness. -/
def scorerW : List (String × String) → List ℚ := fun _ => [2, 1]

/-- Retriever used in the rerank witness. -/
def Rw : Retriever ℚ := ⟨fun _ => [], fun _ _ _ => .ok [cA, cB], some scorerW⟩

/-- C5 (witness): the amended rerank theorem applied to a concrete
two-candidate retriever with distinct scores. -/
theorem C5_rerank_desc_ties_reversed_witness :
    (Rw.reranker = some scorerW) ∧
    (Rw.dbSearch (Rw.embed "q") 10 none = .ok [cA, cB]) ∧
    (validOf [cA, cB] ≠ []) ∧
    (∃ ranking : List (ℕ × ℚ),
      List.Perm ranking (List.enum (scorerW (pairsOf "q" (validOf [cA, cB])))) ∧
      ranking.Pairwise (fun p q => q.2 < p.2 ∨ (q.2 = p.2 ∧ q.1 < p.1)) ∧
      (∀ p ∈ ranking, p.1 < (scorerW (pairsOf "q" (validOf [cA, cB]))).length) ∧
      Rw.retrieve "q" 10 2 none =
        .ok ((ranking.take 2).filterMap (fun p => (validOf [cA, cB])[p.1]?))) :=
  ⟨rfl, rfl, by decide,
    C5_rerank_desc_ties_reversed Rw "q" 10 2 none scorerW [cA, cB] rfl rfl (by decide)⟩

/-! ### Concrete evaluations of the flat store -/

lemma argmaxP_pair (p q : ℕ × α) :
    argmaxP [p, q] = if p.2 < q.2 then some q else some p := rfl

lemma selectTop_of_argmax (k : ℕ) (l : List (ℕ × α)) (p : ℕ × α)
    (h : argmaxP l = some p) :
    selectTop (k + 1) l = (p.1 : ℤ) :: selectTop k (l.filter fun q => q.1 != p.1) := by
  simp only [selectTop, h]

lemma normalizeL2_unit (v : List ℝ) (h : dot v v = 1) :
    faissNormalizeL2 Real.sqrt v = v := by
  simp only [faissNormalizeL2, h, Real.sqrt_one, div_one]
  rw [if_pos zero_lt_one]
  simp

/-- Metadata of the first stored entry in the two-entry example store. -/
def mA : Metadata := [("text", "ta"), ("source", "a")]

/-- Metadata of the second stored entry in the two-entry example store. -/
def mB : Metadata := [("text", "tb"), ("source", "b")]

/-- A two-entry store: unit vector `[1,0]` tagged `source="a"` inserted
first, unit vector `[0,1]` tagged `source="b"` inserted second (the state
produced by adding those two already-normalized rows to a fresh store). -/
def db2 : FAISSVectorDB ℝ := ⟨[[1, 0], [0, 1]], [mA, mB]⟩

lemma search_db2_10 (flt : Option Filters) :
    FAISSVectorDB.search Real.sqrt db2 [1, 0] 1 flt = .ok (applyFilters flt [mA]) := by
  have hq : faissNormalizeL2 Real.sqrt [(1 : ℝ), 0] = [1, 0] :=
    normalizeL2_unit _ (by norm_num [dot])
  have hsc : db2.index.map (fun v => dot v [(1 : ℝ), 0]) = [1, 0] := by
    norm_num [db2, dot]
  have ha : argmaxP [((0 : ℕ), (1 : ℝ)), (1, 0)] = some (0, 1) := by
    rw [argmaxP_pair, if_neg (by norm_num)]
  have hids : faissSearchIds db2.index [(1 : ℝ), 0] 1 = [0] := by
    rw [faissSearchIds, hsc, show List.enum [(1 : ℝ), 0] = [(0, 1), (1, 0)] from rfl,
      show (1 : ℕ) = 0 + 1 from rfl, selectTop_of_argmax 0 _ (0, 1) ha]
    rfl
  have hcoll : collectResults db2.metadata [0] = .ok [mA] := rfl
  simp only [FAISSVectorDB.search, hq, hids, hcoll]

lemma search_db2_01 (flt : Option Filters) :
    FAISSVectorDB.search Real.sqrt db2 [0, 1] 3 flt =
      .ok (applyFilters flt [mB, mA, mB]) := by
  have hq : faissNormalizeL2 Real.sqrt [(0 : ℝ), 1] = [0, 1] :=
    normalizeL2_unit _ (by norm_num [dot])
  have hsc : db2.index.map (fun v => dot v [(0 : ℝ), 1]) = [0, 1] := by
    norm_num [db2, dot]
  have ha : argmaxP [((0 : ℕ), (0 : ℝ)), (1, 1)] = some (1, 1) := by
    rw [argmaxP_pair, if_pos (by norm_num)]
  have hids : faissSearchIds db2.index [(0 : ℝ), 1] 3 = [1, 0, -1] := by
    rw [faissSearchIds, hsc, show List.enum [(0 : ℝ), 1] = [(0, 0), (1, 1)] from rfl,
      show (3 : ℕ) = 2 + 1 from rfl, selectTop_of_argmax 2 _ (1, 1) ha,
      show ([((0 : ℕ), (0 : ℝ)), (1, 1)].filter fun q => q.1 != 1) = [(0, 0)] from rfl,
      show (2 : ℕ) = 1 + 1 from rfl,
      selectTop_of_argmax 1 [((0 : ℕ), (0 : ℝ))] (0, 0) rfl,
      show ([((0 : ℕ), (0 : ℝ))].filter fun q => q.1 != 0) = ([] : List (ℕ × ℝ)) from rfl,
      selectTop_nil]
    rfl
  have hcoll : collectResults db2.metadata [1, 0, -1] = .ok [mB, mA, mB] := rfl
  simp only [FAISSVectorDB.search, hq, hids, hcoll]

/-- C6: the returned order is not non-increasing in similarity.  In `db2`
the entry `mB` (vector `[0,1]`, similarity `1` to the query `[0,1]`)
precedes `mA` (vector `[1,0]`, similarity `0`), but the `-1` padding id
appends a second copy of `mB` after `mA`, so a similarity-`1` candidate
follows a similarity-`0` one. -/
theorem C6_order_violated_by_padding :
    FAISSVectorDB.search Real.sqrt db2 [0, 1] 3 none = .ok [mB, mA, mB] ∧
    dot [(0 : ℝ), 1] [0, 1] = 1 ∧ dot [(1 : ℝ), 0] [0, 1] = 0 :=
  ⟨(search_db2_01 none).trans rfl, by norm_num [dot], by norm_num [dot]⟩

/-- C7: filtering is applied to the already-ranked result list: a search
with a single-field filter equals the unfiltered search post-filtered by
the code's predicate.  Concretely, in `db2` the query `[1,0]` with
`top_k = 1` and filter `source = "b"` returns the empty list although the
store holds the matching entry `mB` beyond the top-1 cut. -/
theorem C7_filter_after_ranking :
    (∀ (db : FAISSVectorDB ℝ) (q : List ℝ) (k : ℕ) (f v : String),
      FAISSVectorDB.search Real.sqrt db q k (some [(f, v)]) =
        Except.map (List.filter (passesFilter [(f, v)]))
          (FAISSVectorDB.search Real.sqrt db q k none)) ∧
    (FAISSVectorDB.search Real.sqrt db2 [1, 0] 1 (some [("source", "b")]) = .ok [] ∧
     List.lookup "source" mB = some "b" ∧ mB ∈ db2.metadata) := by
  constructor
  · intro db q k f v
    simp only [FAISSVectorDB.search]
    cases h : collectResults db.metadata
        (faissSearchIds db.index (faissNormalizeL2 Real.sqrt q) k) with
    | error e => simp [Except.map]
    | ok results => simp [Except.map, applyFilters]
  · exact ⟨(search_db2_10 (some [("source", "b")])).trans rfl, by decide, by simp [db2]⟩

/-! ### Metadata lookup lemmas -/

lemma lookup_cons (k a b : String) (rest : List (String × String)) :
    List.lookup k ((a, b) :: rest) = if k = a then some b else List.lookup k rest := by
  simp only [List.lookup]
  cases h : k == a with
  | true => rw [if_pos (by simpa using h)]
  | false => rw [if_neg (by simpa using h)]

lemma lookup_append_some {k v : String} {m l2 : Metadata}
    (h : List.lookup k m = some v) : List.lookup k (m ++ l2) = some v := by
  induction m with
  | nil => simp at h
  | cons p rest ih =>
    obtain ⟨a, b⟩ := p
    rw [lookup_cons] at h
    rw [List.cons_append, lookup_cons]
    by_cases hk : k = a
    · rw [if_pos hk] at h ⊢; exact h
    · rw [if_neg hk] at h ⊢; exact ih h

lemma lookup_append_none {k : String} {m l2 : Metadata}
    (h : List.lookup k m = none) : List.lookup k (m ++ l2) = List.lookup k l2 := by
  induction m with
  | nil => simp
  | cons p rest ih =>
    obtain ⟨a, b⟩ := p
    rw [lookup_cons] at h
    rw [List.cons_append, lookup_cons]
    by_cases hk : k = a
    · rw [if_pos hk] at h; cases h
    · rw [if_neg hk] at h ⊢; exact ih h

lemma setdefault_lookup_some {m : Metadata} {k k0 v0 v : String}
    (h : List.lookup k m = some v) : List.lookup k (setdefault m k0 v0) = some v := by
  rw [setdefault]
  split
  · exact h
  · exact lookup_append_some h

lemma mdefaults_lookup_some {m : Metadata} {k v : String}
    (h : List.lookup k m = some v) : List.lookup k (mdefaults m) = some v :=
  setdefault_lookup_some (setdefault_lookup_some h)

lemma mdefaults_source_isSome (m : Metadata) :
    (List.lookup "source" (mdefaults m)).isSome := by
  rw [mdefaults]
  cases h : List.lookup "source" (setdefault m "text" "") with
  | some v => rw [setdefault_lookup_some h]; rfl
  | none =>
    rw [setdefault, if_neg (by simp [h])]
    rw [lookup_append_none h]
    decide

/-! ### Decomposition of search results -/

lemma pyIdx_mem {l : List Metadata} {i : ℤ} {m : Metadata}
    (h : pyIdx l i = some m) : m ∈ l := by
  rw [pyIdx] at h
  split at h
  · exact List.getElem?_mem h
  · split at h
    · exact List.getElem?_mem h
    · cases h

lemma collect_mem {md : List Metadata} {ids : List ℤ} {res : List Metadata}
    (h : collectResults md ids = .ok res) {r : Metadata} (hr : r ∈ res) :
    ∃ m ∈ md, r = mdefaults m := by
  induction ids generalizing res with
  | nil =>
    simp only [collectResults] at h
    cases h
    exact absurd hr (List.not_mem_nil r)
  | cons i rest ih =>
    simp only [collectResults] at h
    split at h
    · cases hp : pyIdx md i with
      | none =>
        simp only [hp] at h
        exact (Except.noConfusion h)
      | some m0 =>
        simp only [hp] at h
        cases hc : collectResults md rest with
        | error e =>
          simp only [hc, Except.map] at h
          exact (Except.noConfusion h)
        | ok tl =>
          simp only [hc, Except.map] at h
          cases h
          rcases List.mem_cons.mp hr with rfl | hr2
          · exact ⟨m0, pyIdx_mem hp, rfl⟩
          · exact ih hc hr2
    · exact ih h hr

lemma applyFilters_subset {flt : Option Filters} {results : List Metadata} {r : Metadata}
    (h : r ∈ applyFilters flt results) : r ∈ results := by
  cases flt with
  | none => exact h
  | some f =>
    rw [applyFilters] at h
    split at h
    · exact h
    · exact (List.mem_filter.mp h).1

lemma search_ok_decomp {sqrt : α → α} {db : FAISSVectorDB α} {q : List α} {k : ℕ}
    {flt : Option Filters} {res : List Metadata}
    (h : FAISSVectorDB.search sqrt db q k flt = .ok res) :
    ∃ results, collectResults db.metadata
        (faissSearchIds db.index (faissNormalizeL2 sqrt q) k) = .ok results ∧
      res = applyFilters flt results := by
  simp only [FAISSVectorDB.search] at h
  cases hc : collectResults db.metadata
      (faissSearchIds db.index (faissNormalizeL2 sqrt q) k) with
  | error e =>
    simp only [hc] at h
    exact (Except.noConfusion h)
  | ok results =>
    simp only [hc] at h
    cases h
    exact ⟨results, rfl, rfl⟩

lemma search_mem {sqrt : α → α} {db : FAISSVectorDB α} {q : List α} {k : ℕ}
    {flt : Option Filters} {res : List Metadata}
    (h : FAISSVectorDB.search sqrt db q k flt = .ok res) {r : Metadata}
    (hr : r ∈ res) : ∃ m ∈ db.metadata, r = mdefaults m := by
  obtain ⟨results, hc, rfl⟩ := search_ok_decomp h
  exact collect_mem hc (applyFilters_subset hr)

/-- C4: for any single field/value filter, every candidate returned by a
filtered search has that field equal to the filter value: the code keeps a
candidate only when its (always present) `source` entry equals the filter
dict's `"source"` entry, which forces the filter field to be `"source"`
and the values to agree; for any other field name the result is empty. -/
theorem C4_filter_no_false_positives (f v : String) (db : FAISSVectorDB ℝ)
    (q : List ℝ) (k : ℕ) (res : List Metadata) (r : Metadata)
    (hres : FAISSVectorDB.search Real.sqrt db q k (some [(f, v)]) = .ok res)
    (hr : r ∈ res) : List.lookup f r = some v := by
  obtain ⟨results, hc, rfl⟩ := search_ok_decomp hres
  rw [applyFilters, if_neg (by simp)] at hr
  obtain ⟨hmem, hpass⟩ := List.mem_filter.mp hr
  obtain ⟨m, hm, rfl⟩ := collect_mem hc hmem
  obtain ⟨s, hsv⟩ := Option.isSome_iff_exists.mp (mdefaults_source_isSome m)
  rw [passesFilter, hsv, lookup_cons] at hpass
  by_cases hf : "source" = f
  · rw [if_pos hf] at hpass
    have hseq : s = v := by simpa using hpass
    rw [← hf, hsv, hseq]
  · rw [if_neg hf] at hpass
    simp at hpass

/-- C4 (witness): the filtered search on `db2` with filter
`source = "a"` returns `[mA]`, whose `source` field is `"a"`. -/
theorem C4_filter_no_false_positives_witness :
    (FAISSVectorDB.search Real.sqrt db2 [1, 0] 1 (some [("source", "a")]) = .ok [mA]) ∧
    mA ∈ [mA] ∧ List.lookup "source" mA = some "a" := by
  have h : FAISSVectorDB.search Real.sqrt db2 [1, 0] 1 (some [("source", "a")]) =
      .ok [mA] := (search_db2_10 (some [("source", "a")])).trans rfl
  exact ⟨h, by simp,
    C4_filter_no_false_positives "source" "a" db2 [1, 0] 1 [mA] mA h (by simp)⟩

/-- C8 (amended): on the FlatStore, every search result is a defensive copy
of a stored metadata mapping with only missing `text`/`source` defaults
appended, so every key/value pair of the stored metadata — including extra
keys — is preserved in the result and the stored mapping itself is never
touched.  On the RemoteCollectionStore, `add` builds payloads holding
exactly the `text` and `source` keys, discarding every extra key. -/
theorem C8_flat_preserves_keys_qdrant_drops :
    (∀ (db : FAISSVectorDB ℝ) (q : List ℝ) (k : ℕ) (flt : Option Filters)
        (res : List Metadata) (r : Metadata),
      FAISSVectorDB.search Real.sqrt db q k flt = .ok res → r ∈ res →
        ∃ m, m ∈ db.metadata ∧ r = mdefaults m ∧
          ∀ key val, List.lookup key m = some val → List.lookup key r = some val) ∧
    (∀ (ids : ℕ → String) (vectors : List (List ℝ)) (metas : List Metadata)
        (p : QdrantPoint ℝ), p ∈ qdrantAddPoints ids vectors metas →
      p.payload.map Prod.fst = ["text", "source"]) := by
  constructor
  · intro db q k flt res r hres hr
    obtain ⟨m, hm, rfl⟩ := search_mem hres hr
    exact ⟨m, hm, rfl, fun key val hk => mdefaults_lookup_some hk⟩
  · intro ids vectors metas p hp
    simp only [qdrantAddPoints, List.mem_map] at hp
    obtain ⟨x, hx, rfl⟩ := hp
    rfl

/-- C8 (counterexample): a metadata mapping carrying the extra key `topic`
is persisted by the Qdrant backend as a payload holding only `text` and
`source`; the extra key is dropped, so it cannot be returned unchanged. -/
theorem C8_qdrant_extra_key_dropped :
    qdrantAddPoints (fun _ => "u") [[(1 : ℝ), 0]]
        [[("text", "t"), ("source", "s"), ("topic", "x")]] =
      [⟨"u", [1, 0], [("text", "t"), ("source", "s")]⟩] ∧
    List.lookup "topic" [("text", "t"), ("source", "s"), ("topic", "x")] = some "x" ∧
    List.lookup "topic" [("text", "t"), ("source", "s")] = none :=
  ⟨rfl, by decide, by decide⟩

/-- C8 (witness): the amended preservation theorem applied to the search
`db2 / [1,0] / top_k 1` whose result is `[mA]`, and to a concrete Qdrant
point batch. -/
theorem C8_flat_preserves_keys_qdrant_drops_witness :
    (FAISSVectorDB.search Real.sqrt db2 [1, 0] 1 none = .ok [mA]) ∧
    (∃ m, m ∈ db2.metadata ∧ mA = mdefaults m ∧
      ∀ key val, List.lookup key m = some val → List.lookup key mA = some val) ∧
    ((⟨"u", [(1 : ℝ), 0], [("text", "t"), ("source", "s")]⟩ : QdrantPoint ℝ) ∈
        qdrantAddPoints (fun _ => "u") [[(1 : ℝ), 0]]
          [[("text", "t"), ("source", "s"), ("topic", "x")]]) ∧
    (((⟨"u", [(1 : ℝ), 0], [("text", "t"), ("source", "s")]⟩ :
        QdrantPoint ℝ)).payload.map Prod.fst = ["text", "source"]) := by
  have h : FAISSVectorDB.search Real.sqrt db2 [1, 0] 1 none = .ok [mA] :=
    (search_db2_10 none).trans rfl
  have hpt : (⟨"u", [(1 : ℝ), 0], [("text", "t"), ("source", "s")]⟩ : QdrantPoint ℝ) ∈
      qdrantAddPoints (fun _ => "u") [[(1 : ℝ), 0]]
        [[("text", "t"), ("source", "s"), ("topic", "x")]] := by
    rw [show qdrantAddPoints (fun _ => "u") [[(1 : ℝ), 0]]
        [[("text", "t"), ("source", "s"), ("topic", "x")]] =
      [⟨"u", [(1 : ℝ), 0], [("text", "t"), ("source", "s")]⟩] from rfl]
    exact List.mem_singleton.mpr rfl
  exact ⟨h,
    C8_flat_preserves_keys_qdrant_drops.1 db2 [1, 0] 1 none [mA] mA h (by simp),
    hpt,
    C8_flat_preserves_keys_qdrant_drops.2 (fun _ => "u") [[(1 : ℝ), 0]]
      [[("text", "t"), ("source", "s"), ("topic", "x")]] _ hpt⟩

/-! ### Norms and similarity bounds over the exact reals -/

lemma dot_map_div (c d : α) (v w : List α) :
    dot (v.map (fun x => x / c)) (w.map (fun x => x / d)) = dot v w / (c * d) := by
  induction v generalizing w with
  | nil => simp [dot]
  | cons x xs ih =>
    cases w with
    | nil => simp [dot]
    | cons y ys =>
      simp only [List.map_cons, dot]
      rw [ih, div_mul_div_comm, add_div]

lemma dot_self_nonneg (v : List α) : 0 ≤ dot v v := by
  induction v with
  | nil => simp [dot]
  | cons x xs ih => exact add_nonneg (mul_self_nonneg x) ih

lemma dot_nl_self (v : List ℝ) (hv : 0 < dot v v) :
    dot (faissNormalizeL2 Real.sqrt v) (faissNormalizeL2 Real.sqrt v) = 1 := by
  rw [faissNormalizeL2, if_pos hv, dot_map_div, Real.mul_self_sqrt hv.le]
  exact div_self (ne_of_gt hv)

lemma dot_eq_sum (v w : List ℝ) (h : v.length = w.length) :
    dot v w = ∑ i in Finset.range v.length, v.getD i 0 * w.getD i 0 := by
  induction v generalizing w with
  | nil => simp [dot]
  | cons x xs ih =>
    cases w with
    | nil => simp at h
    | cons y ys =>
      simp only [List.length_cons] at h
      have h2 : xs.length = ys.length := by omega
      simp only [dot, List.length_cons]
      rw [Finset.sum_range_succ']
      simp only [List.getD_cons_succ, List.getD_cons_zero]
      rw [← ih ys h2]
      ring

lemma dot_sq_le (v w : List ℝ) (h : v.length = w.length) :
    dot v w ^ 2 ≤ dot v v * dot w w := by
  rw [dot_eq_sum v w h, dot_eq_sum v v rfl, dot_eq_sum w w rfl, ← h]
  have hcs := Finset.sum_mul_sq_le_sq_mul_sq (Finset.range v.length)
    (fun i => v.getD i 0) (fun i => w.getD i 0)
  simpa [pow_two] using hcs

lemma nl_bounds (v w : List ℝ) (hv : 0 < dot v v) (hw : 0 < dot w w)
    (hlen : v.length = w.length) :
    -1 ≤ dot (faissNormalizeL2 Real.sqrt v) (faissNormalizeL2 Real.sqrt w) ∧
    dot (faissNormalizeL2 Real.sqrt v) (faissNormalizeL2 Real.sqrt w) ≤ 1 := by
  rw [faissNormalizeL2, if_pos hv, faissNormalizeL2, if_pos hw, dot_map_div]
  have hsq : (dot v w / (Real.sqrt (dot v v) * Real.sqrt (dot w w))) ^ 2 ≤ 1 := by
    rw [div_pow, mul_pow, Real.sq_sqrt hv.le, Real.sq_sqrt hw.le]
    exact div_le_one_of_le₀ (dot_sq_le v w hlen) (le_of_lt (mul_pos hv hw))
  exact abs_le.mp ((sq_le_one_iff_abs_le_one _).mp hsq)

/-- C9: adding a single vector `v` (of positive norm) to an empty FlatStore
and searching with query `v` returns that entry first (indeed, in every
position), its similarity score — the inner product of the stored
normalized row with the normalized query — is exactly `1` (hence within
the `1e-6` tolerance), and any similarity between normalized vectors lies
in `[-1, 1]`. -/
theorem C9_self_retrieval (v w : List ℝ) (m : Metadata) (k : ℕ)
    (hv : 0 < dot v v) (hw : 0 < dot w w) (hlen : v.length = w.length) :
    FAISSVectorDB.search Real.sqrt
        ((FAISSVectorDB.add Real.sqrt ⟨[], []⟩ [v] [m]).1) v (k + 1) none =
      .ok (List.replicate (k + 1) (mdefaults m)) ∧
    dot (faissNormalizeL2 Real.sqrt v) (faissNormalizeL2 Real.sqrt v) = 1 ∧
    |dot (faissNormalizeL2 Real.sqrt v) (faissNormalizeL2 Real.sqrt v) - 1| ≤
      1 / 1000000 ∧
    (-1 ≤ dot (faissNormalizeL2 Real.sqrt v) (faissNormalizeL2 Real.sqrt w) ∧
      dot (faissNormalizeL2 Real.sqrt v) (faissNormalizeL2 Real.sqrt w) ≤ 1) := by
  have h1 := dot_nl_self v hv
  refine ⟨?_, h1, by rw [h1]; norm_num, nl_bounds v w hv hw hlen⟩
  rw [show (FAISSVectorDB.add Real.sqrt ⟨[], []⟩ [v] [m]).1 =
      ⟨[faissNormalizeL2 Real.sqrt v], [m]⟩ from rfl]
  exact search_singleton Real.sqrt _ v m k

/-- C9 (witness): the self-retrieval theorem at `v = [3, 4]`,
`w = [1, 0]`, one metadata entry, `top_k = 1`. -/
theorem C9_self_retrieval_witness :
    (0 < dot [(3 : ℝ), 4] [3, 4]) ∧ (0 < dot [(1 : ℝ), 0] [1, 0]) ∧
    ([(3 : ℝ), 4].length = [(1 : ℝ), 0].length) ∧
    (FAISSVectorDB.search Real.sqrt
        ((FAISSVectorDB.add Real.sqrt ⟨[], []⟩ [[(3 : ℝ), 4]] [[("text", "t")]]).1)
        [3, 4] 1 none = .ok (List.replicate 1 (mdefaults [("text", "t")])) ∧
      dot (faissNormalizeL2 Real.sqrt [(3 : ℝ), 4])
          (faissNormalizeL2 Real.sqrt [(3 : ℝ), 4]) = 1 ∧
      |dot (faissNormalizeL2 Real.sqrt [(3 : ℝ), 4])
          (faissNormalizeL2 Real.sqrt [(3 : ℝ), 4]) - 1| ≤ 1 / 1000000 ∧
      (-1 ≤ dot (faissNormalizeL2 Real.sqrt [(3 : ℝ), 4])
            (faissNormalizeL2 Real.sqrt [(1 : ℝ), 0]) ∧
        dot (faissNormalizeL2 Real.sqrt [(3 : ℝ), 4])
            (faissNormalizeL2 Real.sqrt [(1 : ℝ), 0]) ≤ 1)) := by
  have hv : (0 : ℝ) < dot [(3 : ℝ), 4] [3, 4] := by norm_num [dot]
  have hw : (0 : ℝ) < dot [(1 : ℝ), 0] [1, 0] := by norm_num [dot]
  exact ⟨hv, hw, rfl, C9_self_retrieval [3, 4] [1, 0] [("text", "t")] 0 hv hw rfl⟩
